import Mathlib

/-!
Verification development for the Islamabad transit KMZ generator
(`src/generator.py` and `src/main.py`).

The pipeline is shallowly embedded: pandas tables become lists of row
structures, pandas NaN becomes `Option`/`Value.nan`, the simplekml colour
constructor becomes an injective record of its integer arguments, and the
document features (line strings, points) become plain records.  Python
float values are modelled by `FVal` (a finite rational or NaN); exotic
float literals (infinities, exponent notation) do not occur in the claims
and are not modelled.
-/

namespace Transit

/-- A cell value of a pandas table: a numeric value, a NaN (pandas missing
marker), a string, or Python `None`. -/
inductive Value where
  | num (q : Rat)
  | nan
  | str (s : String)
  | null
deriving DecidableEq, Repr

/-- A Python float value: a finite rational or NaN.  `float("nan")` and NaN
cells from pandas both land on `FVal.nan`. -/
inductive FVal where
  | fin (q : Rat)
  | nan
deriving DecidableEq, Repr

/-- A resolved KML colour.  `simplekml.Color.rgb(r, g, b)` renders its
arguments into a hex string injectively, so the record of the arguments is a
faithful abstraction. -/
structure KmlColor where
  r : Int
  g : Int
  b : Int
deriving DecidableEq, Repr

/-- `simplekml.Color.rgb` with the default alpha. -/
def KmlColor.rgb (r g b : Int) : KmlColor := ⟨r, g, b⟩

/-- `simplekml.Color.blue`. -/
def KmlColor.blue : KmlColor := KmlColor.rgb 0 0 255

/-- `simplekml.Color.red`. -/
def KmlColor.red : KmlColor := KmlColor.rgb 255 0 0

/-- `simplekml.Color.white`. -/
def KmlColor.white : KmlColor := KmlColor.rgb 255 255 255

/-- Hex digit test, as accepted by Python `int(_, 16)`. -/
def isHexDig (c : Char) : Bool :=
  c.isDigit || ('a' ≤ c && c ≤ 'f') || ('A' ≤ c && c ≤ 'F')

/-- Value of a hex digit. -/
def hexVal (c : Char) : Int :=
  if c.isDigit then (c.toNat - '0'.toNat : Nat)
  else if 'a' ≤ c && c ≤ 'f' then ((c.toNat - 'a'.toNat : Nat) + 10 : Nat)
  else ((c.toNat - 'A'.toNat : Nat) + 10 : Nat)

/-- Strip leading and trailing whitespace from a character list (Python
`int` ignores surrounding whitespace in its string argument). -/
def trimChars (cs : List Char) : List Char :=
  ((cs.dropWhile Char.isWhitespace).reverse.dropWhile Char.isWhitespace).reverse

/-- Python `int(s, 16)` on the (at most two character) slices taken by the
colour parser: surrounding whitespace is ignored, a single leading sign is
allowed before a digit, otherwise every character must be a hex digit.
Returns `none` where Python raises `ValueError`. -/
def pyIntHexChars (cs : List Char) : Option Int :=
  match trimChars cs with
  | [c] => if isHexDig c then some (hexVal c) else none
  | [c₁, c₂] =>
      if c₁ = '+' && isHexDig c₂ then some (hexVal c₂)
      else if c₁ = '-' && isHexDig c₂ then some (-hexVal c₂)
      else if isHexDig c₁ && isHexDig c₂ then some (16 * hexVal c₁ + hexVal c₂)
      else none
  | _ => none

/-- `gtfs_color_to_kml` from `src/generator.py`: non-strings fall back;
the string is stripped of surrounding whitespace (`strip()`), then of every
leading `'#'` (Python `lstrip("#")`); a result of any length other than 6
falls back; the three 2-character slices are parsed with `int(_, 16)`, any
failure falling back, otherwise `simplekml.Color.rgb` of the three values
is returned. -/
def gtfs_color_to_kml (color_str : Value) (default : KmlColor) : KmlColor :=
  match color_str with
  | .str s =>
      let cs := (trimChars s.toList).dropWhile (· == '#')
      if cs.length ≠ 6 then default
      else
        match pyIntHexChars (cs.take 2), pyIntHexChars ((cs.drop 2).take 2),
              pyIntHexChars (cs.drop 4) with
        | some r, some g, some b => KmlColor.rgb r g b
        | _, _, _ => default
  | _ => default

/-- The fallback condition of the claim, as the claim words it: the value is
not a string, or is not exactly 6 characters after stripping whitespace and
AT MOST ONE optional leading `'#'`, or one of the three 2-character slices
is not hexadecimal. -/
def claimFallbackCond (v : Value) : Bool :=
  match v with
  | .str s =>
      let t := trimChars s.toList
      let cs := match t with
        | '#' :: rest => rest
        | _ => t
      cs.length ≠ 6 ||
        !((pyIntHexChars (cs.take 2)).isSome &&
          (pyIntHexChars ((cs.drop 2).take 2)).isSome &&
          (pyIntHexChars (cs.drop 4)).isSome)
  | _ => true

/-- The colour resolver as the amended claim words it: fallback exactly when
the value is not a string, or is not exactly 6 characters after stripping
whitespace and ALL leading `'#'` characters, or one of the three
2-character slices fails Python hex parsing; otherwise the RGB colour of
the three parsed slice values. -/
def resolveColorSpec (v : Value) (fallback : KmlColor) : KmlColor :=
  match v with
  | .str s =>
      let cs := (trimChars s.toList).dropWhile (· == '#')
      if cs.length = 6 ∧ (pyIntHexChars (cs.take 2)).isSome ∧
          (pyIntHexChars ((cs.drop 2).take 2)).isSome ∧
          (pyIntHexChars (cs.drop 4)).isSome then
        KmlColor.rgb ((pyIntHexChars (cs.take 2)).getD 0)
          ((pyIntHexChars ((cs.drop 2).take 2)).getD 0)
          ((pyIntHexChars (cs.drop 4)).getD 0)
      else fallback
  | _ => fallback

/-! ### Python float and numeric coercion -/

/-- Digits of a decimal numeral to a natural number. -/
def natOfDigits (cs : List Char) : Nat :=
  cs.foldl (fun n c => 10 * n + (c.toNat - '0'.toNat)) 0

/-- An unsigned Python float literal: digits, optionally digits `.` digits
(either side of the point may be empty but not both).  Exotic literals
(exponents, infinities) do not arise in the claims and are not modelled. -/
def parseUnsignedDec (cs : List Char) : Option Rat :=
  let ip := cs.takeWhile Char.isDigit
  match cs.dropWhile Char.isDigit with
  | [] => if ip.isEmpty then none else some (mkRat (natOfDigits ip) 1)
  | '.' :: fp =>
      if fp.all Char.isDigit && (!ip.isEmpty || !fp.isEmpty) then
        some (mkRat (natOfDigits ip * 10 ^ fp.length + natOfDigits fp) (10 ^ fp.length))
      else none
  | _ => none

/-- Python `float(s)` on a string: surrounding whitespace stripped, optional
sign, then an unsigned decimal literal or `nan`.  `none` where Python raises
`ValueError`. -/
def pyFloatChars (cs : List Char) : Option FVal :=
  let t := trimChars cs
  let neg : Bool := match t with
    | '-' :: _ => true
    | _ => false
  let body := match t with
    | '+' :: r => r
    | '-' :: r => r
    | r => r
  if body.map Char.toLower = ['n', 'a', 'n'] then some .nan
  else (parseUnsignedDec body).map (fun q => .fin (if neg then -q else q))

/-- Python `float(v)` on a table cell: numbers and NaN convert (crucially,
`float` of a NaN cell SUCCEEDS, producing NaN); strings are parsed; `None`
raises. -/
def pyFloat (v : Value) : Option FVal :=
  match v with
  | .num q => some (.fin q)
  | .nan => some .nan
  | .str s => pyFloatChars s.toList
  | .null => none

/-- `pd.to_numeric(_, errors="coerce")` on a cell, composed with the
subsequent `dropna`: numeric cells survive, numeric strings parse, NaN and
everything unparseable is dropped (`none`). -/
def toNumericCoerce (v : Value) : Option Rat :=
  match v with
  | .num q => some q
  | .str s =>
      match pyFloatChars s.toList with
      | some (.fin q) => some q
      | _ => none
  | _ => none

/-- Python `str(v)` for feature names.  The exact numeral rendering of
numbers is irrelevant to the claims and abstracted by `toString`. -/
def pyStr (v : Value) : String :=
  match v with
  | .num q => toString q
  | .nan => "nan"
  | .str s => s
  | .null => "None"

/-- Python `int()` truncation (toward zero) of a float, as applied to a
direction indicator. -/
def ratTrunc (q : Rat) : Int :=
  if 0 ≤ q then q.floor else -((-q).floor)

/-! ### String ordering (Python / pandas sort of string keys) -/

/-- Lexicographic comparison of strings by code point, as Python compares
strings (used by `groupby`'s key sort). -/
def strListLe : List Char → List Char → Bool
  | [], _ => true
  | _ :: _, [] => false
  | a :: as, b :: bs =>
      if a.toNat = b.toNat then strListLe as bs
      else decide (a.toNat < b.toNat)

/-- Python string `≤` as a proposition. -/
def strle (a b : String) : Prop := strListLe a.toList b.toList = true

instance : DecidableRel strle := fun _ _ => instDecidableEqBool _ _

/-! ### Table rows -/

/-- A row of `trips.txt` as used by the generator.  `shape_id` is `none`
when the cell is NaN (`pd.isna`), `direction_id` is `none` when the cell is
NaN or the column value is missing. -/
structure TripRow where
  trip_id : String
  route_id : String
  shape_id : Option String
  direction_id : Option Rat
deriving DecidableEq, Repr

/-- A row of `shapes.txt` (the four validated columns). -/
structure ShapeRow where
  shape_id : String
  shape_pt_sequence : Rat
  shape_pt_lon : Rat
  shape_pt_lat : Rat
deriving DecidableEq, Repr

/-- A row of `stop_times.txt` as used by the generator. -/
structure StopTimeRow where
  trip_id : String
  stop_id : String
  stop_sequence : Value
deriving DecidableEq, Repr

/-- A row of `stops.txt` as used by the generator. -/
structure StopRow where
  stop_id : String
  stop_name : Value
  stop_lon : Value
  stop_lat : Value
deriving DecidableEq, Repr

/-- A row of the left join of sorted stop-times with the stops table. -/
structure MergedRow where
  trip_id : String
  stop_id : String
  stop_sequence : Rat
  stop_name : Value
  stop_lon : Value
  stop_lat : Value
deriving DecidableEq, Repr

/-- A Python float coordinate pair (longitude, latitude). -/
abbrev Coord := FVal × FVal

/-- A KML line string feature with its style. -/
structure LineFeature where
  name : String
  coords : List Coord
  width : Nat
  color : KmlColor
deriving DecidableEq, Repr

/-- A KML point feature with its style. -/
structure PointFeature where
  name : String
  lon : FVal
  lat : FVal
  labelScale : Rat
  iconColor : KmlColor
deriving DecidableEq, Repr

/-! ### Direction and representative-trip selection -/

/-- The `trip_route_map` preparation: when `trips.txt` has no
`direction_id` column, a constant column of `0` is added; otherwise the
rows are taken as they are. -/
def trip_route_map (trips : List TripRow) (hasDirCol : Bool) : List TripRow :=
  if hasDirCol then trips
  else trips.map (fun t => { t with direction_id := some 0 })

/-- `sorted(route_trips["direction_id"].dropna().unique())`: the distinct
non-NaN direction values in ascending order. -/
def directionsOf (route_trips : List TripRow) : List Rat :=
  @List.insertionSort Rat (fun a b => a ≤ b)
    (fun a b => inferInstanceAs (Decidable (a ≤ b)))
    ((route_trips.filterMap (·.direction_id)).dedup)

/-- `route_trips[route_trips["direction_id"] == direction]`.  A NaN cell
compares unequal to every value, so NaN-direction trips fall in no group. -/
def dirGroup (route_trips : List TripRow) (direction : Rat) : List TripRow :=
  route_trips.filter (fun t => t.direction_id = some direction)

/-- Sort a list of (trip id, row count) pairs by descending count.  pandas
`sort_values(ascending=False)` is modelled as a stable sort, which on the
small arrays involved is what numpy's sort performs. -/
def sortCountsDesc (l : List (String × Nat)) : List (String × Nat) :=
  @List.insertionSort (String × Nat) (fun a b => b.2 ≤ a.2)
    (fun a b => Nat.decLe b.2 a.2) l

/-- The per-trip stop-time row counts, with keys in ascending sorted order
(pandas `groupby` sorts its keys). -/
def trip_counts (st : List StopTimeRow) : List (String × Nat) :=
  let keys := @List.insertionSort String strle (fun a b => inferInstanceAs (Decidable (strle a b)))
    ((st.map (·.trip_id)).dedup)
  keys.map (fun k => (k, (st.filter (fun r => r.trip_id = k)).length))

/-- `pick_representative_trip_id` from `src/generator.py`: restrict
`stop_times` to the group's trips; if nothing is left return `None`;
otherwise group by trip id, count rows, sort counts descending and return
the first index. -/
def pick_representative_trip_id (trip_ids : List String) (stop_times : List StopTimeRow) :
    Option String :=
  let st := stop_times.filter (fun r => trip_ids.contains r.trip_id)
  if st.isEmpty then none
  else (sortCountsDesc (trip_counts st)).head?.map (·.1)

/-! ### Stop sequencing -/

/-- The left join `st.merge(stops, on="stop_id", how="left")`: each
stop-time row is paired with every matching stops row, and with NaN-filled
stop columns when there is no match. -/
def leftJoinStops (stops : List StopRow) (tid : String) (sid : String) (seq : Rat) :
    List MergedRow :=
  match stops.filter (fun s => s.stop_id = sid) with
  | [] => [⟨tid, sid, seq, .nan, .nan, .nan⟩]
  | ms => ms.map (fun s => ⟨tid, sid, seq, s.stop_name, s.stop_lon, s.stop_lat⟩)

/-- `get_ordered_stops_for_trip` from `src/generator.py`: filter the
stop-times to the trip (empty → empty result), coerce the sequence numbers
to numeric dropping failures, sort ascending by sequence, and left-join the
stops table. -/
def get_ordered_stops_for_trip (stop_times : List StopTimeRow) (stops : List StopRow)
    (trip_id : String) : List MergedRow :=
  let st := stop_times.filter (fun r => r.trip_id = trip_id)
  if st.isEmpty then []
  else
    let coerced := st.filterMap (fun r =>
      (toNumericCoerce r.stop_sequence).map (fun q => (r, q)))
    let sorted := @List.insertionSort (StopTimeRow × Rat) (fun a b => a.2 ≤ b.2)
      (fun a b => inferInstanceAs (Decidable (a.2 ≤ b.2))) coerced
    sorted.flatMap (fun rq => leftJoinStops stops rq.1.trip_id rq.1.stop_id rq.2)

/-- Worker for `drop_duplicates(subset=["stop_id"], keep="first")`: keep a
row only when its stop id has not been seen before. -/
def dedupGo (seen : List String) : List MergedRow → List MergedRow
  | [] => []
  | r :: rs =>
      if r.stop_id ∈ seen then dedupGo seen rs
      else r :: dedupGo (r.stop_id :: seen) rs

/-- `ordered.drop_duplicates(subset=["stop_id"], keep="first")`. -/
def dedupByStopId (l : List MergedRow) : List MergedRow := dedupGo [] l

/-- The body of the stop-emission loop: convert the joined longitude and
latitude with `float()`, skipping the row if either raises, otherwise emit
a point named `str(stop_name)` with label scale 0.8 and the resolved stop
icon colour. -/
def emitPoint (stop_icon_color : KmlColor) (m : MergedRow) : Option PointFeature :=
  match pyFloat m.stop_lon, pyFloat m.stop_lat with
  | some lon, some lat => some ⟨pyStr m.stop_name, lon, lat, mkRat 8 10, stop_icon_color⟩
  | _, _ => none

/-! ### Per-direction processing -/

/-- The body of the per-direction loop of `generate_kmz_file`: the first
trip of the group supplies the shape; a NaN shape id, an empty shape or
fewer than 2 coordinates skip the direction entirely; otherwise the line
feature is created, and stops are emitted from the representative trip when
one exists and its joined stop rows are nonempty. -/
def processDirection (shapes : List ShapeRow) (stop_times : List StopTimeRow)
    (stops : List StopRow) (route_name : String) (line_color stop_icon_color : KmlColor)
    (dir_trips : List TripRow) (direction : Rat) :
    Option LineFeature × List PointFeature :=
  match dir_trips with
  | [] => (none, [])
  | rep_trip_row :: _ =>
      let dir_int : Int := ratTrunc direction
      let dir_label := if dir_int = 0 then "FWD" else "BWD"
      match rep_trip_row.shape_id with
      | none => (none, [])
      | some sid =>
          let route_shape := shapes.filter (fun r => r.shape_id = sid)
          if route_shape.isEmpty then (none, [])
          else
            let sorted := @List.insertionSort ShapeRow
              (fun a b => a.shape_pt_sequence ≤ b.shape_pt_sequence)
              (fun a b => inferInstanceAs (Decidable (a.shape_pt_sequence ≤ b.shape_pt_sequence)))
              route_shape
            let coords : List Coord :=
              sorted.map (fun r => (FVal.fin r.shape_pt_lon, FVal.fin r.shape_pt_lat))
            if coords.length < 2 then (none, [])
            else
              let line : LineFeature := ⟨route_name ++ " " ++ dir_label, coords, 4, line_color⟩
              match pick_representative_trip_id (dir_trips.map (·.trip_id)) stop_times with
              | none => (some line, [])
              | some rep_trip_id =>
                  let ordered := get_ordered_stops_for_trip stop_times stops rep_trip_id
                  if ordered.isEmpty then (some line, [])
                  else (some line, (dedupByStopId ordered).filterMap (emitPoint stop_icon_color))

/-! ### External rail overlay (metro KMZ) -/

/-- A `Placemark` element of the overlay document.  `nameText`: `none` when
the placemark has no `name` child, otherwise the element's text (`none` for
an empty element).  `lineCoords`: `none` when the placemark has no
descendant `LineString`, `some none` when the `LineString` has no
`coordinates` child, `some (some t)` for a `coordinates` child with text
`t` (`t = none` models empty text). -/
structure Placemark where
  nameText : Option (Option String)
  lineCoords : Option (Option (Option String))
deriving DecidableEq, Repr

/-- The overlay name resolution:
`name_el.text.strip() if (name_el is not None and name_el.text) else "Metro Segment"`.
Note the truthiness test is on the UNSTRIPPED text, so whitespace-only text
passes the test and is then stripped to the empty string. -/
def placemarkName (p : Placemark) : String :=
  match p.nameText with
  | some (some s) => if s ≠ "" then (trimChars s.toList).asString else "Metro Segment"
  | _ => "Metro Segment"

/-- Python `text.replace("\n", " ").split()`: the maximal nonempty
whitespace-free runs. -/
def pySplitWs (cs : List Char) : List (List Char) :=
  (cs.splitOnP Char.isWhitespace).filter (fun t => !t.isEmpty)

/-- One whitespace-separated coordinate token: split on commas, require at
least two fields, parse the first two with `float()`, dropping the token if
either raises. -/
def parseCoordToken (tok : List Char) : Option Coord :=
  match tok.splitOn ',' with
  | lonS :: latS :: _ =>
      match pyFloatChars lonS, pyFloatChars latS with
      | some lon, some lat => some (lon, lat)
      | _, _ => none
  | _ => none

/-- The retained rail segments of the overlay document: placemarks without
a `LineString`, without `coordinates` or with falsy coordinate text are
skipped; the coordinate text is tokenized on whitespace and parsed
tokenwise; segments with fewer than 2 parsed coordinates are discarded. -/
def extractMetroLines (pms : List Placemark) : List (String × List Coord) :=
  pms.filterMap (fun pm =>
    let name := placemarkName pm
    match pm.lineCoords with
    | some (some (some txt)) =>
        if txt = "" then none
        else
          let coords := (pySplitWs txt.toList).filterMap parseCoordToken
          if 2 ≤ coords.length then some (name, coords) else none
    | _ => none)

/-- Does the list start with the given pattern? -/
def startsWithChars : List Char → List Char → Bool
  | _, [] => true
  | [], _ :: _ => false
  | a :: as, b :: bs => a = b && startsWithChars as bs

/-- Does the list contain the pattern as a contiguous run? -/
def containsChars (pat : List Char) : List Char → Bool
  | [] => pat.isEmpty
  | c :: rest => startsWithChars (c :: rest) pat || containsChars pat rest

/-- Python `pat in s` for strings: contiguous substring containment. -/
def pyInStr (pat s : String) : Bool := containsChars pat.toList s.toList

/-- Python `s.lower()` (ASCII suffices for the names involved). -/
def pyLower (s : String) : String := (s.toList.map Char.toLower).asString

/-- The name-derived overlay colour: case-insensitive substring `"red"`
gives red, otherwise `"orange"` gives `rgb(255, 165, 0)`, otherwise
white. -/
def metroColor (name : String) : KmlColor :=
  let name_lower := pyLower name
  if pyInStr "red" name_lower then KmlColor.red
  else if pyInStr "orange" name_lower then KmlColor.rgb 255 165 0
  else KmlColor.white

/-- The overlay emission loop: for each retained segment, a per-segment
folder and a width-5 line with the segment's coordinates under the forward
top-level folder, and a per-segment folder and a width-5 line with the
reversed coordinates under the backward top-level folder, both coloured by
name.  Each list entry pairs the per-segment folder name with its line. -/
def metroEmit (segs : List (String × List Coord)) :
    List (String × LineFeature) × List (String × LineFeature) :=
  (segs.map (fun nc => (nc.1, ⟨nc.1, nc.2, 5, metroColor nc.1⟩)),
   segs.map (fun nc => (nc.1, ⟨nc.1, nc.2.reverse, 5, metroColor nc.1⟩)))

/-! ### Serialization and packaging -/

/-- The bytes returned by `generate_kmz_file`: either the encoded markup
text itself, or a zip container given by its entries (compression does not
change the entry contents and is abstracted away). -/
inductive OutputBytes where
  | text (s : String)
  | archive (entries : List (String × String))
deriving DecidableEq, Repr

/-- The output step of `generate_kmz_file`: the serialized text
`kml_content` is computed once; format `"kml"` returns it directly, any
other format wraps it as the sole zip entry `doc.kml`. -/
def save_output (kml_content : String) (output_format : String) : OutputBytes :=
  if output_format = "kml" then .text kml_content
  else .archive [("doc.kml", kml_content)]

/-- Wrapping unpackaged output as the sole archive entry `doc.kml` (the
pure wrapping transformation the claim describes). -/
def wrapAsArchive (b : OutputBytes) : OutputBytes :=
  match b with
  | .text s => .archive [("doc.kml", s)]
  | b => b

/-! ### Helper lemmas -/

theorem strListLe_refl : ∀ as : List Char, strListLe as as = true
  | [] => rfl
  | _ :: as => by simp [strListLe, strListLe_refl as]

theorem strle_refl (a : String) : strle a a := strListLe_refl a.toList

theorem strListLe_total : ∀ as bs : List Char, strListLe as bs = true ∨ strListLe bs as = true
  | [], _ => Or.inl rfl
  | _ :: _, [] => Or.inr rfl
  | a :: as, b :: bs => by
      by_cases hab : a.toNat = b.toNat
      · simpa [strListLe, hab] using strListLe_total as bs
      · rcases Nat.lt_or_ge a.toNat b.toNat with h | h
        · exact Or.inl (by simp [strListLe, hab, h])
        · have hba : ¬b.toNat = a.toNat := fun e => hab e.symm
          have hlt : b.toNat < a.toNat := lt_of_le_of_ne h hba
          exact Or.inr (by simp [strListLe, hba, hlt])

theorem strListLe_trans : ∀ as bs cs : List Char,
    strListLe as bs = true → strListLe bs cs = true → strListLe as cs = true
  | [], _, _, _, _ => rfl
  | _ :: _, [], _, h₁, _ => by simp [strListLe] at h₁
  | _ :: _, _ :: _, [], _, h₂ => by simp [strListLe] at h₂
  | a :: as, b :: bs, c :: cs, h₁, h₂ => by
      by_cases hab : a.toNat = b.toNat <;> by_cases hbc : b.toNat = c.toNat
      · simp only [strListLe, hab, hbc, if_pos rfl] at *
        exact strListLe_trans as bs cs h₁ h₂
      · have : a.toNat ≠ c.toNat := fun e => hbc (hab ▸ e)
        simp only [strListLe, hab, hbc, if_pos rfl, if_neg hbc, if_neg this] at *
        simpa [hab] using h₂
      · have hac : a.toNat < c.toNat := by
          simp only [strListLe, if_neg hab] at h₁
          exact hbc ▸ of_decide_eq_true h₁
        simp [strListLe, Nat.ne_of_lt hac, hac]
      · have h₁' : a.toNat < b.toNat := by
          simp only [strListLe, if_neg hab] at h₁
          exact of_decide_eq_true h₁
        have h₂' : b.toNat < c.toNat := by
          simp only [strListLe, if_neg hbc] at h₂
          exact of_decide_eq_true h₂
        have hac : a.toNat < c.toNat := Nat.lt_trans h₁' h₂'
        simp [strListLe, Nat.ne_of_lt hac, hac]

instance : IsTotal String strle := ⟨fun a b => strListLe_total a.toList b.toList⟩

instance : IsTrans String strle :=
  ⟨fun a b c => strListLe_trans a.toList b.toList c.toList⟩

theorem dedupGo_sublist (seen : List String) : ∀ l : List MergedRow, (dedupGo seen l).Sublist l
  | [] => List.Sublist.refl []
  | r :: rs => by
      by_cases h : r.stop_id ∈ seen
      · simpa [dedupGo, h] using (dedupGo_sublist seen rs).cons r
      · simpa [dedupGo, h] using (dedupGo_sublist (r.stop_id :: seen) rs).cons₂ r

theorem dedupGo_count (s : String) :
    ∀ (seen : List String) (l : List MergedRow),
    ((dedupGo seen l).filter (fun m => m.stop_id = s)).length =
      if s ∈ seen then 0
      else min 1 ((l.filter (fun m => m.stop_id = s)).length)
  | seen, [] => by simp [dedupGo]
  | seen, r :: rs => by
      by_cases hseen : r.stop_id ∈ seen
      · rw [dedupGo, if_pos hseen, dedupGo_count s seen rs]
        by_cases hs : s ∈ seen
        · simp [hs]
        · have hrs : ¬(r.stop_id = s) := fun e => hs (e ▸ hseen)
          simp [hs, List.filter_cons, hrs]
      · rw [dedupGo, if_neg hseen]
        by_cases hr : r.stop_id = s
        · have hs : s ∉ seen := fun e => hseen (hr ▸ e)
          have : s ∈ r.stop_id :: seen := hr ▸ List.mem_cons_self _ _
          rw [List.filter_cons_of_pos (by simpa using hr), List.filter_cons_of_pos (by simpa using hr)]
          simp [dedupGo_count s (r.stop_id :: seen) rs, this, hs]
        · rw [List.filter_cons_of_neg (by simpa using hr), List.filter_cons_of_neg (by simpa using hr),
            dedupGo_count s (r.stop_id :: seen) rs]
          have hsr : ¬s = r.stop_id := fun e => hr e.symm
          have : (s ∈ r.stop_id :: seen) ↔ (s ∈ seen) := by
            simp [List.mem_cons, hsr]
          rw [if_congr this rfl rfl]

theorem dedupGo_find (s : String) :
    ∀ (seen : List String) (l : List MergedRow), s ∉ seen →
    (dedupGo seen l).find? (fun m => m.stop_id = s) = l.find? (fun m => m.stop_id = s)
  | seen, [], _ => rfl
  | seen, r :: rs, hs => by
      by_cases hseen : r.stop_id ∈ seen
      · have hr : ¬(r.stop_id = s) := fun e => hs (e ▸ hseen)
        rw [dedupGo, if_pos hseen, dedupGo_find s seen rs hs,
          List.find?_cons_of_neg _ (by simpa using hr)]
      · rw [dedupGo, if_neg hseen]
        by_cases hr : r.stop_id = s
        · rw [List.find?_cons_of_pos _ (by simpa using hr),
            List.find?_cons_of_pos _ (by simpa using hr)]
        · rw [List.find?_cons_of_neg _ (by simpa using hr),
            List.find?_cons_of_neg _ (by simpa using hr)]
          exact dedupGo_find s (r.stop_id :: seen) rs (by
            simp only [List.mem_cons, not_or]
            exact ⟨fun e => hr e.symm, hs⟩)

theorem sortCountsDesc_head {R : String × Nat → String × Nat → Prop} :
    ∀ l : List (String × Nat), l ≠ [] → l.Pairwise R →
    ∃ h, (sortCountsDesc l).head? = some h ∧ h ∈ l ∧ (∀ x ∈ l, x.2 ≤ h.2) ∧
      (∀ x ∈ l, x.2 = h.2 → h = x ∨ R h x)
  | [], hne, _ => absurd rfl hne
  | [a], _, _ => by
      refine ⟨a, rfl, List.mem_singleton_self a, ?_, ?_⟩
      · intro x hx; rw [List.mem_singleton.mp hx]
      · intro x hx _; exact Or.inl (List.mem_singleton.mp hx).symm
  | a :: b :: l, _, hp => by
      have hpt : (b :: l).Pairwise R := hp.tail
      have hhead : ∀ x ∈ b :: l, R a x := fun x hx => List.rel_of_pairwise_cons hp hx
      obtain ⟨h', hh', hmem', hmax', hties'⟩ :=
        sortCountsDesc_head (b :: l) (List.cons_ne_nil b l) hpt
      have hsort : sortCountsDesc (a :: b :: l)
          = List.orderedInsert (fun x y => y.2 ≤ x.2) a (sortCountsDesc (b :: l)) := rfl
      rcases hlist : sortCountsDesc (b :: l) with _ | ⟨h0, t⟩
      · rw [hlist] at hh'; simp at hh'
      · rw [hlist] at hh'
        have h0eq : h0 = h' := by simpa using hh'
        rw [h0eq] at hlist
        by_cases hr : h'.2 ≤ a.2
        · refine ⟨a, ?_, List.mem_cons_self a _, ?_, ?_⟩
          · rw [hsort, hlist, List.orderedInsert, if_pos hr]; rfl
          · intro x hx
            rcases List.mem_cons.mp hx with rfl | hx'
            · exact Nat.le_refl _
            · exact Nat.le_trans (hmax' x hx') hr
          · intro x hx _
            rcases List.mem_cons.mp hx with rfl | hx'
            · exact Or.inl rfl
            · exact Or.inr (hhead x hx')
        · refine ⟨h', ?_, List.mem_cons_of_mem a hmem', ?_, ?_⟩
          · rw [hsort, hlist, List.orderedInsert, if_neg hr]; rfl
          · intro x hx
            rcases List.mem_cons.mp hx with rfl | hx'
            · exact Nat.le_of_lt (Nat.lt_of_not_le hr)
            · exact hmax' x hx'
          · intro x hx he
            rcases List.mem_cons.mp hx with rfl | hx'
            · exact absurd (he ▸ Nat.le_refl x.2) hr
            · exact hties' x hx' he

theorem extractMetroLines_retained (pms : List Placemark) :
    ∀ x ∈ extractMetroLines pms, 2 ≤ x.2.length := by
  intro x hx
  obtain ⟨pm, -, hpm⟩ := List.mem_filterMap.mp hx
  rcases pm with ⟨nt, lc⟩
  rcases lc with _ | lc
  · exact absurd hpm (by simp [extractMetroLines])
  rcases lc with _ | lc
  · exact absurd hpm (by simp [extractMetroLines])
  rcases lc with _ | txt
  · exact absurd hpm (by simp [extractMetroLines])
  simp only [extractMetroLines] at hpm
  split_ifs at hpm with h1 h2
  have hx2 := Option.some.inj hpm
  subst hx2
  exact h2

end Transit

open Transit

/-! ## Claim theorems -/

/-- C5: For every assembled document, the packaged (kmz) output equals the
unpackaged (kml) serialized text of the same document wrapped as the sole
archive entry named `doc.kml`; the packaging step is a pure wrapping
transformation of the serialized text and changes nothing else. -/
theorem kmz_is_wrapped_kml (kml_content : String) :
    save_output kml_content "kmz" = wrapAsArchive (save_output kml_content "kml") ∧
    save_output kml_content "kmz" = OutputBytes.archive [("doc.kml", kml_content)] := by
  constructor <;> rfl

/-- C3 counterexample: a placemark whose name text is whitespace-only (blank
but truthy in Python) is named the empty string after stripping, not
`"Metro Segment"`; the claim as stated is false for blank
(whitespace-only) names. -/
theorem blank_overlay_name_counterexample :
    placemarkName ⟨some (some " "), none⟩ = "" ∧ ("" : String) ≠ "Metro Segment" := by
  constructor <;> decide

/-- C3 (amended): the retained rail segment is named `"Metro Segment"` when
the name element is absent or its text is absent or EMPTY; a nonempty
(possibly whitespace-only) text is stripped of surrounding whitespace and
used as the name, so a whitespace-only name yields the empty string rather
than the default. -/
theorem placemark_name_default_amended (p : Placemark) :
    ((p.nameText = none ∨ p.nameText = some none ∨ p.nameText = some (some "")) →
      placemarkName p = "Metro Segment") ∧
    (∀ s, p.nameText = some (some s) → s ≠ "" →
      placemarkName p = (trimChars s.toList).asString) := by
  constructor
  · rintro (h | h | h) <;> simp [placemarkName, h]
  · intro s hs hne
    simp [placemarkName, hs, hne]

/-- Witness for C3 (amended) at concrete placemarks. -/
theorem placemark_name_default_amended_witness :
    placemarkName ⟨some (some ""), none⟩ = "Metro Segment" ∧
    placemarkName ⟨some (some " Red "), none⟩ = "Red" := by
  constructor
  · exact (placemark_name_default_amended ⟨some (some ""), none⟩).1 (Or.inr (Or.inr rfl))
  · have h := (placemark_name_default_amended ⟨some (some " Red "), none⟩).2 " Red " rfl
      (by decide)
    rw [h]; decide

/-- C1 counterexample: with the `direction_id` column present, a trip whose
direction value is NaN is excluded from processing — the enumerated
direction list is empty and the forward (0) group does not contain the trip
— contradicting the claim that such a trip is treated as forward. -/
theorem nan_direction_counterexample :
    directionsOf (trip_route_map [⟨"t1", "r1", some "s1", none⟩] true) = [] ∧
    dirGroup (trip_route_map [⟨"t1", "r1", some "s1", none⟩] true) 0 = [] := by
  constructor <;> decide

/-- C1 (amended): when the `direction_id` column is missing entirely, every
trip is assigned direction 0 and is placed in the forward group; but when
the column is present and an individual trip's direction value is NaN, that
trip belongs to no direction group at all — it is excluded from processing,
not treated as forward. -/
theorem direction_handling_amended (trips : List TripRow) :
    (∀ t ∈ trip_route_map trips false, t.direction_id = some 0 ∧
      t ∈ dirGroup (trip_route_map trips false) 0) ∧
    (∀ t ∈ trip_route_map trips true, t.direction_id = none →
      ∀ d : Rat, t ∉ dirGroup (trip_route_map trips true) d) := by
  constructor
  · intro t ht
    have hdir : t.direction_id = some 0 := by
      simp only [trip_route_map, if_neg (Bool.false_ne_true ∘ id), List.mem_map] at ht
      obtain ⟨t0, -, rfl⟩ := ht
      rfl
    exact ⟨hdir, List.mem_filter.mpr ⟨ht, by simp [hdir]⟩⟩
  · intro t _ hdir d hmem
    have h := (List.mem_filter.mp hmem).2
    simp [hdir] at h

/-- Witness for C1 (amended) at a concrete trip table. -/
theorem direction_handling_amended_witness :
    ((⟨"t1", "r1", some "s1", some 0⟩ : TripRow).direction_id = some 0 ∧
      (⟨"t1", "r1", some "s1", some 0⟩ : TripRow) ∈
        dirGroup (trip_route_map [⟨"t1", "r1", some "s1", none⟩] false) 0) ∧
    (⟨"t1", "r1", some "s1", none⟩ : TripRow) ∉
      dirGroup (trip_route_map [⟨"t1", "r1", some "s1", none⟩] true) 0 := by
  constructor
  · exact (direction_handling_amended [⟨"t1", "r1", some "s1", none⟩]).1 _ (by decide)
  · exact (direction_handling_amended [⟨"t1", "r1", some "s1", none⟩]).2 _ (by decide) rfl 0

/-- C6 counterexample: `"##FF0000"` is not 6 characters after stripping
whitespace and ONE optional leading hash (the claim's fallback condition
holds), yet the resolver strips BOTH hashes and returns red instead of the
fallback; the claim as stated is false. -/
theorem color_hash_strip_counterexample :
    claimFallbackCond (.str "##FF0000") = true ∧
    gtfs_color_to_kml (.str "##FF0000") KmlColor.blue = KmlColor.red ∧
    KmlColor.red ≠ KmlColor.blue := by
  refine ⟨by decide, by decide, by decide⟩

/-- C6 (amended): the colour resolver returns the fallback exactly when the
value is not a string, or is not exactly 6 characters after stripping
whitespace and ALL leading hash characters, or one of the three 2-character
slices fails Python hex parsing; otherwise it returns the RGB colour of the
three parsed slices. -/
theorem gtfs_color_to_kml_amended (v : Value) (d : KmlColor) :
    gtfs_color_to_kml v d = resolveColorSpec v d := by
  cases v with
  | num q => rfl
  | nan => rfl
  | null => rfl
  | str s =>
      simp only [gtfs_color_to_kml, resolveColorSpec]
      by_cases h6 : ((trimChars s.toList).dropWhile (· == '#')).length = 6
      · rw [if_neg (not_not_intro h6)]
        rcases h1 : pyIntHexChars (((trimChars s.toList).dropWhile (· == '#')).take 2)
          with _ | r
        · simp [h1]
        · rcases h2 : pyIntHexChars
              ((((trimChars s.toList).dropWhile (· == '#')).drop 2).take 2) with _ | g
          · simp [h1, h2]
          · rcases h3 : pyIntHexChars (((trimChars s.toList).dropWhile (· == '#')).drop 4)
              with _ | b
            · simp [h1, h2, h3]
            · have h6' : (List.dropWhile (fun x => x == '#') (trimChars s.data)).length = 6 := h6
              simp [h1, h2, h3, h6']
      · rw [if_pos h6, if_neg]
        intro hc
        exact h6 hc.1

/-- C4: every retained rail segment (at least 2 parsed coordinates) is
emitted exactly twice: at its position in the forward list with its
coordinate sequence unchanged, and at the same position in the backward
list with the exact reverse, both with width 5 and both coloured by the
segment name (case-insensitive substring "red" gives red, otherwise
"orange" gives RGB(255,165,0), otherwise white). -/
theorem metro_segment_double_emission (pms : List Placemark) (i : Nat)
    (h : i < (extractMetroLines pms).length) :
    2 ≤ (extractMetroLines pms)[i].2.length ∧
    (metroEmit (extractMetroLines pms)).1.length = (extractMetroLines pms).length ∧
    (metroEmit (extractMetroLines pms)).2.length = (extractMetroLines pms).length ∧
    ∃ hf : i < (metroEmit (extractMetroLines pms)).1.length,
    ∃ hb : i < (metroEmit (extractMetroLines pms)).2.length,
      (metroEmit (extractMetroLines pms)).1[i] =
        ((extractMetroLines pms)[i].1,
          ⟨(extractMetroLines pms)[i].1, (extractMetroLines pms)[i].2, 5,
            if pyInStr "red" (pyLower (extractMetroLines pms)[i].1) then KmlColor.red
            else if pyInStr "orange" (pyLower (extractMetroLines pms)[i].1) then
              KmlColor.rgb 255 165 0
            else KmlColor.white⟩) ∧
      (metroEmit (extractMetroLines pms)).2[i] =
        ((extractMetroLines pms)[i].1,
          ⟨(extractMetroLines pms)[i].1, (extractMetroLines pms)[i].2.reverse, 5,
            if pyInStr "red" (pyLower (extractMetroLines pms)[i].1) then KmlColor.red
            else if pyInStr "orange" (pyLower (extractMetroLines pms)[i].1) then
              KmlColor.rgb 255 165 0
            else KmlColor.white⟩) := by
  have hf : i < (metroEmit (extractMetroLines pms)).1.length := by
    simpa [metroEmit] using h
  have hb : i < (metroEmit (extractMetroLines pms)).2.length := by
    simpa [metroEmit] using h
  refine ⟨extractMetroLines_retained pms _ (List.getElem_mem h),
    by simp [metroEmit], by simp [metroEmit], hf, hb, ?_, ?_⟩
  · simp [metroEmit, metroColor, List.getElem_map]
  · simp [metroEmit, metroColor, List.getElem_map]

/-- Witness for C4 at one concrete overlay placemark. -/
theorem metro_segment_double_emission_witness :
    ∃ hf : 0 <
        (metroEmit (extractMetroLines
          [⟨some (some "Red Line"), some (some (some "1,2 3,4"))⟩])).1.length,
    ∃ hb : 0 <
        (metroEmit (extractMetroLines
          [⟨some (some "Red Line"), some (some (some "1,2 3,4"))⟩])).2.length,
      (metroEmit (extractMetroLines
          [⟨some (some "Red Line"), some (some (some "1,2 3,4"))⟩])).1[0] =
        ("Red Line", ⟨"Red Line", [(.fin 1, .fin 2), (.fin 3, .fin 4)], 5, KmlColor.red⟩) ∧
      (metroEmit (extractMetroLines
          [⟨some (some "Red Line"), some (some (some "1,2 3,4"))⟩])).2[0] =
        ("Red Line", ⟨"Red Line", [(.fin 3, .fin 4), (.fin 1, .fin 2)], 5, KmlColor.red⟩) := by
  obtain ⟨-, -, -, hf, hb, h1, h2⟩ := metro_segment_double_emission
    [⟨some (some "Red Line"), some (some (some "1,2 3,4"))⟩] 0 (by decide)
  refine ⟨hf, hb, ?_, ?_⟩
  · rw [h1]; decide
  · rw [h2]; decide

/-- C7: for a (route, direction) group whose first trip resolves a shape
id, if the shape yields fewer than 2 coordinate points the direction is
skipped entirely (no line, no stops); if it yields 2 or more points a line
feature is emitted. -/
theorem shape_point_threshold (shapes : List ShapeRow) (stop_times : List StopTimeRow)
    (stops : List StopRow) (route_name : String) (lc sc : KmlColor)
    (t : TripRow) (rest : List TripRow) (dir : Rat) (sid : String)
    (hsid : t.shape_id = some sid) :
    ((shapes.filter (fun r => r.shape_id = sid)).length < 2 →
      processDirection shapes stop_times stops route_name lc sc (t :: rest) dir
        = (none, [])) ∧
    (2 ≤ (shapes.filter (fun r => r.shape_id = sid)).length →
      ((processDirection shapes stop_times stops route_name lc sc (t :: rest) dir).1).isSome
        = true) := by
  constructor
  · intro hlt
    by_cases he : shapes.filter (fun r => r.shape_id = sid) = []
    · simp [processDirection, hsid, he]
    · have hne : (shapes.filter (fun r => r.shape_id = sid)).isEmpty = false := by
        simp [List.isEmpty_iff, he]
      simp [processDirection, hsid, hne, List.length_insertionSort, hlt]
  · intro hge
    have he : shapes.filter (fun r => r.shape_id = sid) ≠ [] := by
      intro h0
      rw [h0] at hge
      simp at hge
    have hne : (shapes.filter (fun r => r.shape_id = sid)).isEmpty = false := by
      simp [List.isEmpty_iff, he]
    have hnl : ¬((shapes.filter (fun r => r.shape_id = sid)).length < 2) :=
      Nat.not_lt.mpr hge
    simp only [processDirection, hsid, hne, Bool.false_eq_true, if_false,
      List.length_map, List.length_insertionSort, hnl]
    cases hpick : pick_representative_trip_id (List.map (fun x => x.trip_id) (t :: rest))
        stop_times with
    | none => rfl
    | some rid =>
        cases ho : (get_ordered_stops_for_trip stop_times stops rid).isEmpty with
        | true =>
            simp only [ho, if_true]
            rfl
        | false =>
            simp only [ho, Bool.false_eq_true, if_false]
            rfl

/-- Witness for C7 at concrete shape tables (1 point skips, 2 points emit). -/
theorem shape_point_threshold_witness :
    processDirection [⟨"sh", 1, 10, 20⟩] [] [] "R1" KmlColor.blue KmlColor.blue
      [⟨"t1", "r1", some "sh", some 0⟩] 0 = (none, []) ∧
    ((processDirection [⟨"sh", 1, 10, 20⟩, ⟨"sh", 2, 11, 21⟩] [] [] "R1"
      KmlColor.blue KmlColor.blue [⟨"t1", "r1", some "sh", some 0⟩] 0).1).isSome = true := by
  constructor
  · exact (shape_point_threshold [⟨"sh", 1, 10, 20⟩] [] [] "R1" KmlColor.blue KmlColor.blue
      ⟨"t1", "r1", some "sh", some 0⟩ [] 0 "sh" rfl).1 (by decide)
  · exact (shape_point_threshold [⟨"sh", 1, 10, 20⟩, ⟨"sh", 2, 11, 21⟩] [] [] "R1"
      KmlColor.blue KmlColor.blue ⟨"t1", "r1", some "sh", some 0⟩ [] 0 "sh" rfl).2 (by decide)

/-- C9: for a group whose shape resolves a valid line (2 or more points)
but whose trips collectively have zero stop-time rows, the line feature is
still emitted while stop emission is skipped. -/
theorem line_emitted_without_stop_times (shapes : List ShapeRow)
    (stop_times : List StopTimeRow) (stops : List StopRow) (route_name : String)
    (lc sc : KmlColor) (t : TripRow) (rest : List TripRow) (dir : Rat) (sid : String)
    (hsid : t.shape_id = some sid)
    (hge : 2 ≤ (shapes.filter (fun r => r.shape_id = sid)).length)
    (hempty : stop_times.filter
      (fun r => ((t :: rest).map (fun tr => tr.trip_id)).contains r.trip_id) = []) :
    ((processDirection shapes stop_times stops route_name lc sc (t :: rest) dir).1).isSome
      = true ∧
    (processDirection shapes stop_times stops route_name lc sc (t :: rest) dir).2 = [] := by
  have hpick : pick_representative_trip_id ((t :: rest).map (fun tr => tr.trip_id)) stop_times
      = none := by
    simp only [pick_representative_trip_id]
    rw [hempty]
    rfl
  have he : shapes.filter (fun r => r.shape_id = sid) ≠ [] := by
    intro h0
    rw [h0] at hge
    simp at hge
  have hne : (shapes.filter (fun r => r.shape_id = sid)).isEmpty = false := by
    simp [List.isEmpty_iff, he]
  have hnl : ¬((shapes.filter (fun r => r.shape_id = sid)).length < 2) :=
    Nat.not_lt.mpr hge
  simp only [processDirection, hsid, hne, Bool.false_eq_true, if_false,
    List.length_map, List.length_insertionSort, hnl]
  rw [hpick]
  exact ⟨rfl, rfl⟩

/-- Witness for C9 at a concrete feed with a 2-point shape and no
stop-times. -/
theorem line_emitted_without_stop_times_witness :
    ((processDirection [⟨"sh", 1, 10, 20⟩, ⟨"sh", 2, 11, 21⟩] [] [] "R1"
      KmlColor.blue KmlColor.blue [⟨"t1", "r1", some "sh", some 0⟩] 0).1).isSome = true ∧
    (processDirection [⟨"sh", 1, 10, 20⟩, ⟨"sh", 2, 11, 21⟩] [] [] "R1"
      KmlColor.blue KmlColor.blue [⟨"t1", "r1", some "sh", some 0⟩] 0).2 = [] :=
  line_emitted_without_stop_times [⟨"sh", 1, 10, 20⟩, ⟨"sh", 2, 11, 21⟩] [] [] "R1"
    KmlColor.blue KmlColor.blue ⟨"t1", "r1", some "sh", some 0⟩ [] 0 "sh" rfl
    (by decide) (by decide)

/-- C10: a stop-time row of the representative trip whose stop id has no
matching stops row is left-joined with NaN coordinates, `float` of NaN
succeeds, and a point feature with NaN coordinates is still emitted; a row
is dropped exactly when `float` of its longitude or latitude raises. -/
theorem unmatched_stop_left_join (stop_times : List StopTimeRow) (stops : List StopRow)
    (tid : String) (r : StopTimeRow) (q : Rat) (c : KmlColor)
    (hr : r ∈ stop_times) (ht : r.trip_id = tid)
    (hq : toNumericCoerce r.stop_sequence = some q)
    (hnm : ∀ s ∈ stops, s.stop_id ≠ r.stop_id) :
    pyFloat Value.nan = some FVal.nan ∧
    (∃ m ∈ get_ordered_stops_for_trip stop_times stops tid,
        m.stop_id = r.stop_id ∧ m.stop_lon = Value.nan ∧ m.stop_lat = Value.nan ∧
        emitPoint c m = some ⟨"nan", FVal.nan, FVal.nan, mkRat 8 10, c⟩) ∧
    (∀ m : MergedRow, emitPoint c m = none ↔
        (pyFloat m.stop_lon = none ∨ pyFloat m.stop_lat = none)) := by
  refine ⟨rfl, ?_, ?_⟩
  · have hr' : r ∈ stop_times.filter (fun x => x.trip_id = tid) :=
      List.mem_filter.mpr ⟨hr, by simp [ht]⟩
    have hne : (stop_times.filter (fun x => x.trip_id = tid)).isEmpty = false := by
      cases hfe : (stop_times.filter (fun x => x.trip_id = tid)).isEmpty
      · rfl
      · rw [List.isEmpty_iff] at hfe
        rw [hfe] at hr'
        cases hr'
    refine ⟨⟨r.trip_id, r.stop_id, q, .nan, .nan, .nan⟩, ?_, rfl, rfl, rfl, rfl⟩
    simp only [get_ordered_stops_for_trip, hne, Bool.false_eq_true, if_false]
    apply List.mem_flatMap.mpr
    refine ⟨(r, q), ?_, ?_⟩
    · apply (List.Perm.mem_iff (List.perm_insertionSort _ _)).mpr
      exact List.mem_filterMap.mpr ⟨r, hr', by rw [hq]; rfl⟩
    · have hfil : stops.filter (fun s => s.stop_id = r.stop_id) = [] := by
        rw [List.filter_eq_nil_iff]
        intro s hs
        simpa using hnm s hs
      simp [leftJoinStops, hfil]
  · intro m
    cases h1 : pyFloat m.stop_lon <;> cases h2 : pyFloat m.stop_lat <;>
      simp [emitPoint, h1, h2]

/-- Witness for C10 at a concrete feed whose stop table lacks the visited
stop id. -/
theorem unmatched_stop_left_join_witness :
    ∃ m ∈ get_ordered_stops_for_trip [⟨"t1", "sX", .num 1⟩]
        [⟨"sY", .str "Y", .num 1, .num 2⟩] "t1",
      m.stop_id = "sX" ∧ m.stop_lon = Value.nan ∧ m.stop_lat = Value.nan ∧
      emitPoint KmlColor.blue m
        = some ⟨"nan", FVal.nan, FVal.nan, mkRat 8 10, KmlColor.blue⟩ := by
  obtain ⟨-, h2, -⟩ := unmatched_stop_left_join [⟨"t1", "sX", .num 1⟩]
    [⟨"sY", .str "Y", .num 1, .num 2⟩] "t1" ⟨"t1", "sX", .num 1⟩ 1 KmlColor.blue
    (by decide) rfl rfl (by decide)
  exact h2

/-- C8: when the representative trip's ordered stop-times visit the same
stop id more than once, the deduplicated stop sequence contains that stop
exactly once, keeping the first occurrence (the first-occurrence row is
preserved and the result is a subsequence of the ordered rows). -/
theorem duplicate_stop_kept_once (stop_times : List StopTimeRow) (stops : List StopRow)
    (tid s : String)
    (hdup : 2 ≤ ((get_ordered_stops_for_trip stop_times stops tid).filter
        (fun m => m.stop_id = s)).length) :
    ((dedupByStopId (get_ordered_stops_for_trip stop_times stops tid)).filter
        (fun m => m.stop_id = s)).length = 1 ∧
    (dedupByStopId (get_ordered_stops_for_trip stop_times stops tid)).find?
        (fun m => m.stop_id = s)
      = (get_ordered_stops_for_trip stop_times stops tid).find? (fun m => m.stop_id = s) ∧
    (dedupByStopId (get_ordered_stops_for_trip stop_times stops tid)).Sublist
      (get_ordered_stops_for_trip stop_times stops tid) := by
  refine ⟨?_, dedupGo_find s [] _ (by simp), dedupGo_sublist [] _⟩
  rw [dedupByStopId, dedupGo_count s []]
  simp only [List.not_mem_nil, if_false]
  omega

/-- Witness for C8 at a concrete trip that visits stop "a" twice. -/
theorem duplicate_stop_kept_once_witness :
    ((dedupByStopId (get_ordered_stops_for_trip
        [⟨"t", "a", .num 1⟩, ⟨"t", "b", .num 2⟩, ⟨"t", "a", .num 3⟩]
        [⟨"a", .str "A", .num 1, .num 1⟩] "t")).filter
        (fun m => m.stop_id = "a")).length = 1 ∧
    (dedupByStopId (get_ordered_stops_for_trip
        [⟨"t", "a", .num 1⟩, ⟨"t", "b", .num 2⟩, ⟨"t", "a", .num 3⟩]
        [⟨"a", .str "A", .num 1, .num 1⟩] "t")).find? (fun m => m.stop_id = "a")
      = (get_ordered_stops_for_trip
        [⟨"t", "a", .num 1⟩, ⟨"t", "b", .num 2⟩, ⟨"t", "a", .num 3⟩]
        [⟨"a", .str "A", .num 1, .num 1⟩] "t").find? (fun m => m.stop_id = "a") ∧
    (dedupByStopId (get_ordered_stops_for_trip
        [⟨"t", "a", .num 1⟩, ⟨"t", "b", .num 2⟩, ⟨"t", "a", .num 3⟩]
        [⟨"a", .str "A", .num 1, .num 1⟩] "t")).Sublist
      (get_ordered_stops_for_trip
        [⟨"t", "a", .num 1⟩, ⟨"t", "b", .num 2⟩, ⟨"t", "a", .num 3⟩]
        [⟨"a", .str "A", .num 1, .num 1⟩] "t") :=
  duplicate_stop_kept_once
    [⟨"t", "a", .num 1⟩, ⟨"t", "b", .num 2⟩, ⟨"t", "a", .num 3⟩]
    [⟨"a", .str "A", .num 1, .num 1⟩] "t" "a" (by decide)

/-- The selection core of `pick_representative_trip_id`: on a nonempty
restricted stop-times frame the head of the descending stable sort over
the key-sorted counts is a trip with the maximal row count, and among trips
tying on that count it is the least trip id in Python string order — not
the one whose rows appear first in source order. -/
theorem trip_counts_spec (st : List StopTimeRow) (hst : st ≠ []) :
    ∃ t, (sortCountsDesc (trip_counts st)).head?.map (fun p => p.1) = some t ∧
      t ∈ st.map (fun r => r.trip_id) ∧
      (∀ k ∈ st.map (fun r => r.trip_id),
        (st.filter (fun x => x.trip_id = k)).length ≤
          (st.filter (fun x => x.trip_id = t)).length) ∧
      (∀ k ∈ st.map (fun r => r.trip_id),
        (st.filter (fun x => x.trip_id = k)).length =
          (st.filter (fun x => x.trip_id = t)).length → strle t k) := by
  have hkeysSorted : List.Sorted strle
      (@List.insertionSort String strle (fun a b => inferInstanceAs (Decidable (strle a b)))
        ((st.map (fun r => r.trip_id)).dedup)) :=
    List.sorted_insertionSort strle _
  have hkmem : ∀ k : String,
      k ∈ @List.insertionSort String strle
          (fun a b => inferInstanceAs (Decidable (strle a b)))
          ((st.map (fun r => r.trip_id)).dedup)
        ↔ k ∈ st.map (fun r => r.trip_id) := fun k =>
    Iff.trans (List.perm_insertionSort strle _).mem_iff List.mem_dedup
  have hpw : (trip_counts st).Pairwise (fun a b : String × Nat => strle a.1 b.1) := by
    simp only [trip_counts]
    exact List.Pairwise.map _ (fun a b hab => hab) hkeysSorted
  have hcne : trip_counts st ≠ [] := by
    have h1 : st.map (fun r => r.trip_id) ≠ [] := by
      intro h
      exact hst (List.map_eq_nil_iff.mp h)
    obtain ⟨a, ha⟩ : ∃ a, a ∈ st.map (fun r => r.trip_id) := by
      cases hstm : st.map (fun r => r.trip_id) with
      | nil => exact absurd hstm h1
      | cons x xs => exact ⟨x, by simp [hstm]⟩
    have hak : a ∈ @List.insertionSort String strle
        (fun a b => inferInstanceAs (Decidable (strle a b)))
        ((st.map (fun r => r.trip_id)).dedup) := (hkmem a).mpr ha
    have : (a, (st.filter (fun x => x.trip_id = a)).length) ∈ trip_counts st := by
      simp only [trip_counts]
      exact List.mem_map_of_mem _ hak
    exact List.ne_nil_of_mem this
  obtain ⟨h, hh, hmem, hmax, hties⟩ := sortCountsDesc_head (trip_counts st) hcne hpw
  have hmem' : ∃ k0, k0 ∈ @List.insertionSort String strle
      (fun a b => inferInstanceAs (Decidable (strle a b)))
      ((st.map (fun r => r.trip_id)).dedup) ∧
      (k0, (st.filter (fun x => x.trip_id = k0)).length) = h := by
    simpa only [trip_counts, List.mem_map] using hmem
  obtain ⟨k0, hk0, hk0eq⟩ := hmem'
  have h2eq : h.2 = (st.filter (fun x => x.trip_id = h.1)).length := by
    rw [← hk0eq]
  refine ⟨h.1, ?_, ?_, ?_, ?_⟩
  · rw [hh]
    rfl
  · have hin : h.1 ∈ @List.insertionSort String strle
        (fun a b => inferInstanceAs (Decidable (strle a b)))
        ((st.map (fun r => r.trip_id)).dedup) := by
      rw [← hk0eq]
      exact hk0
    exact (hkmem h.1).mp hin
  · intro k hk
    have hck : (k, (st.filter (fun x => x.trip_id = k)).length) ∈ trip_counts st := by
      simp only [trip_counts]
      exact List.mem_map_of_mem _ ((hkmem k).mpr hk)
    have hle := hmax _ hck
    exact h2eq ▸ hle
  · intro k hk heq
    have hck : (k, (st.filter (fun x => x.trip_id = k)).length) ∈ trip_counts st := by
      simp only [trip_counts]
      exact List.mem_map_of_mem _ ((hkmem k).mpr hk)
    have htie := hties _ hck (by rw [heq]; exact h2eq.symm)
    rcases htie with heq2 | hstrle
    · have hk1 : h.1 = k := by rw [heq2]
      rw [hk1]
      exact strle_refl k
    · exact hstrle

/-- C2 counterexample: with trips "A" and "B" tying on stop-time row count
and B's rows appearing first in source order, the selector picks "A"
(ascending trip id from the groupby key sort), not the source-order-first
"B"; the claim's tie-breaking rule is false. -/
theorem pick_representative_counterexample :
    (([⟨"B", "s1", .num 1⟩, ⟨"B", "s2", .num 2⟩, ⟨"A", "s1", .num 1⟩,
        ⟨"A", "s2", .num 2⟩] : List StopTimeRow).filter
      (fun r => r.trip_id = "A")).length =
    (([⟨"B", "s1", .num 1⟩, ⟨"B", "s2", .num 2⟩, ⟨"A", "s1", .num 1⟩,
        ⟨"A", "s2", .num 2⟩] : List StopTimeRow).filter
      (fun r => r.trip_id = "B")).length ∧
    ([⟨"B", "s1", .num 1⟩, ⟨"B", "s2", .num 2⟩, ⟨"A", "s1", .num 1⟩,
        ⟨"A", "s2", .num 2⟩] : List StopTimeRow).head?.map (fun r => r.trip_id)
      = some "B" ∧
    pick_representative_trip_id ["A", "B"]
      [⟨"B", "s1", .num 1⟩, ⟨"B", "s2", .num 2⟩, ⟨"A", "s1", .num 1⟩, ⟨"A", "s2", .num 2⟩]
      = some "A" ∧
    ("A" : String) ≠ "B" := by
  refine ⟨by decide, by decide, by decide, by decide⟩

/-- C2 (amended): for a group with at least one stop-time row the chosen
representative trip has the greatest number of stop-time rows, and a tie on
that count is broken by ascending trip identifier (the groupby key sort),
not by source row order of the stop_times table. -/
theorem pick_representative_amended (trip_ids : List String) (stop_times : List StopTimeRow)
    (hne : stop_times.filter (fun r => trip_ids.contains r.trip_id) ≠ []) :
    ∃ t, pick_representative_trip_id trip_ids stop_times = some t ∧
      t ∈ (stop_times.filter (fun r => trip_ids.contains r.trip_id)).map
        (fun r => r.trip_id) ∧
      (∀ k ∈ (stop_times.filter (fun r => trip_ids.contains r.trip_id)).map
          (fun r => r.trip_id),
        ((stop_times.filter (fun r => trip_ids.contains r.trip_id)).filter
            (fun x => x.trip_id = k)).length ≤
          ((stop_times.filter (fun r => trip_ids.contains r.trip_id)).filter
            (fun x => x.trip_id = t)).length) ∧
      (∀ k ∈ (stop_times.filter (fun r => trip_ids.contains r.trip_id)).map
          (fun r => r.trip_id),
        ((stop_times.filter (fun r => trip_ids.contains r.trip_id)).filter
            (fun x => x.trip_id = k)).length =
          ((stop_times.filter (fun r => trip_ids.contains r.trip_id)).filter
            (fun x => x.trip_id = t)).length → strle t k) := by
  obtain ⟨t, hpick, hmem, hmax, hties⟩ :=
    trip_counts_spec (stop_times.filter (fun r => trip_ids.contains r.trip_id)) hne
  refine ⟨t, ?_, hmem, hmax, hties⟩
  have hie : (stop_times.filter (fun r => trip_ids.contains r.trip_id)).isEmpty = false := by
    cases hfe : (stop_times.filter (fun r => trip_ids.contains r.trip_id)).isEmpty
    · rfl
    · rw [List.isEmpty_iff] at hfe
      exact absurd hfe hne
  simp only [pick_representative_trip_id, hie, Bool.false_eq_true, if_false]
  exact hpick

/-- Witness for C2 (amended) at the tie scenario. -/
theorem pick_representative_amended_witness :
    pick_representative_trip_id ["A", "B"]
      [⟨"B", "s1", .num 1⟩, ⟨"B", "s2", .num 2⟩, ⟨"A", "s1", .num 1⟩, ⟨"A", "s2", .num 2⟩]
      ≠ none := by
  obtain ⟨t, hpick, -, -, -⟩ := pick_representative_amended ["A", "B"]
    [⟨"B", "s1", .num 1⟩, ⟨"B", "s2", .num 2⟩, ⟨"A", "s1", .num 1⟩, ⟨"A", "s2", .num 2⟩]
    (by decide)
  rw [hpick]
  simp
